import Mathlib

/-!
Verification of the attachment ingestion pipeline of `src/index.tsx`
(EdTech chat client).

The embedding below translates the data model and the operations of the
pipeline into Lean: the attachment interfaces (`AttachedFile`,
`AttachedDocument`), the module-level registry state (`attachedFiles`,
`attachedDocs`), the per-document progress reporting (`updateProgress`
closure, rendered pills), PDF extraction (lines 306-321), message
composition (`handleChatFormSubmit`, lines 178-212), removal
(`removeAttachment`, lines 342-354) and the file-selection handler
(`handleFileSelected`, lines 259-340).

JavaScript's single-threaded `async`/`await` execution is modelled by a
deterministic sequential fold over the selected batch: the `for` loop of
`handleFileSelected` awaits each document's extraction before the next
iteration starts.  The outcome of each document's awaited extraction
(success / `AbortError` / other error) is an environment input carried by
the batch item.  `Date.now()` at each iteration is likewise an
environment input.  Percentages are rational numbers.
-/

/-- Interface `AttachedFile` (src lines 23-30): an image attachment,
immutable once created. -/
structure AttachedFile where
  id : String
  name : String
  base64 : String
  mimeType : String
  sourceUrl : String
deriving DecidableEq, Repr

/-- An `AbortController` as far as the pipeline observes it: whether
`abort()` has been called on it. -/
structure AbortCtrl where
  signaled : Bool
deriving DecidableEq, Repr

/-- Interface `AttachedDocument` (src lines 32-39): a document attachment
with mutable extracted text, an unused `summary` field and an optional
abort controller. -/
structure AttachedDocument where
  id : String
  name : String
  textContent : String
  summary : Option String := none
  abortController : Option AbortCtrl := none
deriving DecidableEq, Repr

/-- `type Attachment = AttachedFile | AttachedDocument` (src line 15). -/
inductive Attachment where
  | file (f : AttachedFile)
  | doc (d : AttachedDocument)
deriving DecidableEq, Repr

/-- The module-level registry state (src lines 65-66):
`attachedFiles` and `attachedDocs`. -/
structure AppState where
  attachedFiles : List AttachedFile
  attachedDocs : List AttachedDocument
deriving DecidableEq, Repr

/-- The empty registry (initial module state). -/
def emptyState : AppState := ⟨[], []⟩

/-- `[...attachedFiles, ...attachedDocs]` — the snapshot used both by
`handleChatFormSubmit` (src line 181) and `renderAttachments`
(src line 358): images in insertion order, then documents. -/
def snapshotAll (s : AppState) : List Attachment :=
  s.attachedFiles.map Attachment.file ++ s.attachedDocs.map Attachment.doc

/-- One call of the `updateProgress` closure (src lines 288-298): a status
label together with an optional percentage. -/
structure ProgressEvent where
  status : String
  percentage : Option ℚ
deriving DecidableEq, Repr

/-- The visual pill of one attachment (src lines 366-399 plus the classes
toggled by `handleFileSelected`): the `.file-name` text, the progress-bar
visibility and width, and the `processing` / `error` class flags. -/
structure Pill where
  id : String
  isImage : Bool
  statusText : String
  barHidden : Bool
  barWidth : ℚ
  processing : Bool
  error : Bool
deriving DecidableEq, Repr

/-- Effect of `updateProgress(status, percentage)` (src lines 288-298) on
the captured pill: no percentage hides the bar and resets its width to 0;
a percentage shows the bar at width `Math.max(0, Math.min(100, percentage))`. -/
def updatePill (p : Pill) (e : ProgressEvent) : Pill :=
  match e.percentage with
  | none => { p with statusText := e.status, barHidden := true, barWidth := 0 }
  | some q => { p with statusText := e.status, barHidden := false,
                       barWidth := max 0 (min 100 q) }

/-- Apply an `updateProgress` call of the extraction task owning the pill
with identity `id` to the rendered pill list. -/
def applyUpdateProgress (id : String) (e : ProgressEvent) (pills : List Pill) : List Pill :=
  pills.map (fun p => if p.id == id then updatePill p e else p)

/-- `pill.classList.add/remove('processing')` on the pill with this id. -/
def setProcessing (id : String) (b : Bool) (pills : List Pill) : List Pill :=
  pills.map (fun p => if p.id == id then { p with processing := b } else p)

/-- `pill.classList.add('error')` on the pill with this id. -/
def setErrorClass (id : String) (pills : List Pill) : List Pill :=
  pills.map (fun p => if p.id == id then { p with error := true } else p)

/-- The pill freshly created by `renderAttachments` for one attachment
(src lines 366-399): a doc pill shows the file name and a hidden progress
bar, with no `processing` or `error` class. -/
def renderPill (a : Attachment) : Pill :=
  match a with
  | .file f => ⟨f.id, true, "", true, 0, false, false⟩
  | .doc d => ⟨d.id, false, d.name, true, 0, false, false⟩

/-- `renderAttachments()` (src lines 356-400): a full replace of the
visual list from the current registry snapshot. -/
def renderAttachments (s : AppState) : List Pill :=
  (snapshotAll s).map renderPill

/-! ### PDF extraction (src lines 306-321)

A parsed PDF is its list of pages, each page the list of textual items
(`item.str`) returned by `getTextContent`. -/

/-- The page count and per-page text items yielded by the PDF structure
parser for one document. -/
structure PdfDocument where
  pages : List (List String)
deriving DecidableEq, Repr

/-- The page loop of `handleFileSelected` (src lines 311-318), running
`i` from 1 to `numPages`: each iteration reports
`Extracting text (Page i of numPages)...` at `15 + (i/numPages)*70`,
then appends the page's items joined by single spaces followed by a
paragraph break to the accumulated text. -/
def pdfPageLoop (numPages : Nat) : Nat → List (List String) → List ProgressEvent × String
  | _, [] => ([], "")
  | i, items :: rest =>
    let pct : ℚ := 15 + ((i : ℚ) / (numPages : ℚ)) * 70
    let ev : ProgressEvent :=
      ⟨"Extracting text (Page " ++ toString i ++ " of " ++ toString numPages ++ ")...", some pct⟩
    let pageStr := String.intercalate " " items ++ "\n\n"
    let (evs, text) := pdfPageLoop numPages (i + 1) rest
    (ev :: evs, pageStr ++ text)

/-- The whole PDF branch of `handleFileSelected` (src lines 306-321):
`Reading document...` at 5, `Parsing PDF...` at 15, the page loop, the
assignment of the extracted text, and the final `updateProgress(file.name)`
with no percentage.  Returns the emitted progress events and the text. -/
def extractPdfRun (fileName : String) (pdf : PdfDocument) : List ProgressEvent × String :=
  let numPages := pdf.pages.length
  let (evs, text) := pdfPageLoop numPages 1 pdf.pages
  (⟨"Reading document...", some 5⟩ :: ⟨"Parsing PDF...", some 15⟩ ::
      (evs ++ [⟨fileName, none⟩]), text)

/-! Spec-side renderings of the claimed progress sequence and extracted
text, written from the words of the specification for comparison with
`extractPdfRun`. -/

/-- Spec wording: the status label of page `i` of `numPages`. -/
def specPageStatus (i numPages : Nat) : String :=
  "Extracting text (Page " ++ toString i ++ " of " ++ toString numPages ++ ")..."

/-- Spec wording: percentage `15 + (i/pageCount)*70`. -/
def specPagePct (i numPages : Nat) : ℚ :=
  15 + ((i : ℚ) / (numPages : ℚ)) * 70

/-- Spec wording: `Reading document...` at 5, `Parsing PDF...` at 15, one
page event for each `i` from 1 to `P`, and a final update carrying the
plain file name and no percentage. -/
def specPdfEvents (fileName : String) (numPages : Nat) : List ProgressEvent :=
  ⟨"Reading document...", some 5⟩ :: ⟨"Parsing PDF...", some 15⟩ ::
    ((List.range' 1 numPages).map
        (fun i => ⟨specPageStatus i numPages, some (specPagePct i numPages)⟩) ++
      [⟨fileName, none⟩])

/-- Spec wording: each page's items joined by single spaces, with a
paragraph break appended after each page. -/
def specPdfText (pages : List (List String)) : String :=
  String.join (pages.map (fun items => String.intercalate " " items ++ "\n\n"))

theorem string_foldl_append (l : List String) :
    ∀ (a b : String),
      List.foldl (fun r s => r ++ s) (a ++ b) l = a ++ List.foldl (fun r s => r ++ s) b l := by
  induction l with
  | nil => simp
  | cons x xs ih =>
    intro a b
    simp only [List.foldl_cons]
    rw [String.append_assoc, ih]

theorem string_join_cons (s : String) (l : List String) :
    String.join (s :: l) = s ++ String.join l := by
  simp only [String.join, List.foldl_cons, String.empty_append]
  have h : s = s ++ "" := (String.append_empty s).symm
  rw [h, string_foldl_append, String.append_empty]

theorem pdfPageLoop_eq (numPages : Nat) :
    ∀ (pages : List (List String)) (i : Nat),
      pdfPageLoop numPages i pages =
        ((List.range' i pages.length).map
            (fun j => ⟨specPageStatus j numPages, some (specPagePct j numPages)⟩),
          specPdfText pages)
  | [], _ => by simp [pdfPageLoop, specPdfText, String.join]
  | items :: rest, i => by
    have ih := pdfPageLoop_eq numPages rest (i + 1)
    simp only [pdfPageLoop, ih, specPdfText, List.length_cons, List.range'_succ,
      List.map_cons, Prod.mk.injEq]
    rw [string_join_cons]
    exact ⟨rfl, rfl⟩

/-- C1: For every PDF document of P pages, the progress-update sequence is
`Reading document...` at 5, `Parsing PDF...` at 15, then for each page
index i from 1 to P, strictly sequential in page order,
`Extracting text (Page i of P)...` at percentage 15 + (i/P)*70, and
finally an update carrying the plain file name and no percentage; every
reported percentage is clamped to [0, 100] before display; the extracted
text concatenates each page's items joined by single spaces with a
paragraph break appended after each page. -/
theorem extractPdfRun_spec (fileName : String) (pdf : PdfDocument) :
    extractPdfRun fileName pdf =
      (specPdfEvents fileName pdf.pages.length, specPdfText pdf.pages) ∧
    ∀ (p : Pill) (e : ProgressEvent),
      0 ≤ (updatePill p e).barWidth ∧ (updatePill p e).barWidth ≤ 100 := by
  constructor
  · simp [extractPdfRun, pdfPageLoop_eq, specPdfEvents]
  · intro p e
    cases e with
    | mk status pct =>
      cases pct with
      | none => simp [updatePill]
      | some q =>
        simp only [updatePill]
        exact ⟨le_max_left _ _, max_le (by norm_num) (min_le_left _ _)⟩

/-! ### Message composition (src lines 178-212) -/

/-- A content part of the outgoing chat message (the subset of the
`@google/genai` `Part` type the composer produces; named `MsgPart` since
`Part` is taken): an inline binary payload or a text block. -/
inductive MsgPart where
  | inlineData (mimeType data : String)
  | text (t : String)
deriving DecidableEq, Repr

/-- The part list built by `handleChatFormSubmit` (src lines 197-212): one
`inlineData` part per attached image in order, then `promptText` — the
document block plus instruction plus user input when documents are
present, the bare user input otherwise — pushed as a single text part
when non-empty. -/
def composeParts (files : List AttachedFile) (docs : List AttachedDocument)
    (userInput : String) : List MsgPart :=
  let imageParts : List MsgPart := files.map (fun f => MsgPart.inlineData f.mimeType f.base64)
  let promptText : String :=
    if docs.length > 0 then
      let docText := String.intercalate "\n\n---\n\n"
        (docs.map (fun d => "DOCUMENT: \"" ++ d.name ++ "\"\n\n" ++ d.textContent))
      docText ++ "\n\n---\n\nBased on the document(s) provided, please respond to the following: "
        ++ userInput
    else userInput
  if promptText = "" then imageParts else imageParts ++ [MsgPart.text promptText]

/-- `handleChatFormSubmit` up to the part list it sends (src lines
178-212): the input is trimmed; an empty trimmed input with zero
attachments is rejected (`none`); otherwise the composed parts are sent.
The chat-service call itself is an external collaborator. -/
def handleChatFormSubmit (chatInputValue : String) (s : AppState) : Option (List MsgPart) :=
  let userInput := chatInputValue.trim
  let allAttachments := snapshotAll s
  if userInput = "" ∧ allAttachments.length = 0 then none
  else some (composeParts s.attachedFiles s.attachedDocs userInput)

/-- Spec wording: each document rendered as `DOCUMENT: "<name>"` followed
by two newlines and its `textContent`, joined by the separator. -/
def specDocsBlock (docs : List AttachedDocument) : String :=
  String.intercalate "\n\n---\n\n"
    (docs.map (fun d => "DOCUMENT: \"" ++ d.name ++ "\"\n\n" ++ d.textContent))

/-- Spec wording: at most one text part; with documents present it is the
rendered documents, then an instruction line and the user input appended;
with no documents it is exactly the user input, omitted when empty. -/
def specTextParts (docs : List AttachedDocument) (u : String) : List MsgPart :=
  match docs with
  | [] => if u = "" then [] else [MsgPart.text u]
  | _ :: _ =>
    [MsgPart.text (specDocsBlock docs ++
      "\n\n---\n\nBased on the document(s) provided, please respond to the following: " ++ u)]

/-- Spec wording: one inline binary part per image in insertion order
first, followed by the text part(s) of `specTextParts`. -/
def specComposeParts (files : List AttachedFile) (docs : List AttachedDocument)
    (u : String) : List MsgPart :=
  files.map (fun f => MsgPart.inlineData f.mimeType f.base64) ++ specTextParts docs u

theorem string_append_ne_empty_of_left (s t : String) (hs : s.length ≠ 0) :
    s ++ t ≠ "" := by
  intro h
  have hl := congrArg String.length h
  rw [String.length_append] at hl
  have h0 : ("" : String).length = 0 := rfl
  omega

/-- C2: the composed message parts are the images in insertion order
followed by at most one text part as described by the spec, and a send
with empty trimmed input and zero attachments is rejected as a no-op. -/
theorem composeParts_spec (files : List AttachedFile) (docs : List AttachedDocument)
    (u : String) (v : String) (s : AppState) :
    composeParts files docs u = specComposeParts files docs u ∧
    (handleChatFormSubmit v s = none ↔
      v.trim = "" ∧ s.attachedFiles = [] ∧ s.attachedDocs = []) := by
  constructor
  · cases docs with
    | nil =>
      by_cases hu : u = "" <;>
        simp [composeParts, specComposeParts, specTextParts, hu]
    | cons d ds =>
      have hne : ∀ (x : String),
          x ++ "\n\n---\n\nBased on the document(s) provided, please respond to the following: "
            ++ u ≠ "" := by
        intro x
        apply string_append_ne_empty_of_left
        rw [String.length_append]
        have hpos :
            ("\n\n---\n\nBased on the document(s) provided, please respond to the following: "
              : String).length ≠ 0 := by decide
        omega
      have hlen : (d :: ds).length > 0 := by simp
      simp only [composeParts, specComposeParts, specTextParts, specDocsBlock, if_pos hlen]
      rw [if_neg (hne _)]
  · simp only [handleChatFormSubmit, snapshotAll]
    by_cases hc : v.trim = "" ∧
        (s.attachedFiles.map Attachment.file ++ s.attachedDocs.map Attachment.doc).length = 0
    · rw [if_pos hc]
      simp only [List.length_append, List.length_map, Nat.add_eq_zero,
        List.length_eq_zero] at hc
      simp [hc.1, hc.2.1, hc.2.2]
    · rw [if_neg hc]
      simp only [List.length_append, List.length_map, Nat.add_eq_zero,
        List.length_eq_zero] at hc
      simp only [reduceCtorEq, false_iff]
      intro h
      exact hc ⟨h.1, h.2.1 ▸ rfl, h.2.2 ▸ rfl⟩

/-! ### Removal and late-result discarding (src lines 342-354, 320) -/

/-- `docToCancel?.abortController?.abort()` (src lines 347-348): the first
document with the given id (`Array.prototype.find`) gets its controller
signaled, when it has one. -/
def signalAbort (id : String) : List AttachedDocument → List AttachedDocument
  | [] => []
  | d :: rest =>
    if d.id == id then
      { d with abortController :=
          d.abortController.map (fun c => { c with signaled := true }) } :: rest
    else d :: signalAbort id rest

/-- Observable effects of `removeAttachment`, listed in the order the
code performs them. -/
inductive RemoveEffect where
  | abortSignaled (id : String)
  | registryFiltered (id : String)
  | rendered
deriving DecidableEq, Repr

/-- `removeAttachment(id)` (src lines 342-354).  `isProcessing` is whether
the pill has the `processing` class; `confirmAnswer` is the user's answer
to the confirm dialog, reached only when not processing (`||`
short-circuit).  Proceeding signals the matching document's controller
first, then filters both sequences by id, then re-renders. -/
def removeAttachment (id : String) (isProcessing confirmAnswer : Bool) (s : AppState) :
    AppState × List RemoveEffect :=
  if isProcessing || confirmAnswer then
    let signaled := ((s.attachedDocs.find? (fun d => d.id == id)).bind
      (fun d => d.abortController)).isSome
    ({ attachedFiles := s.attachedFiles.filter (fun f => !(f.id == id)),
       attachedDocs := (signalAbort id s.attachedDocs).filter (fun d => !(d.id == id)) },
     (if signaled then [RemoveEffect.abortSignaled id] else []) ++
       [RemoveEffect.registryFiltered id, RemoveEffect.rendered])
  else (s, [])

/-- The completion write `doc.textContent = textContent` (src line 320)
viewed at registry level: the write targets the document object carrying
the extraction's attachment identity; when no document with that id is in
the registry (removed or cleared), the registry is unaffected — the late
result is discarded, not reinserted. -/
def updateDocumentText (id text : String) (docs : List AttachedDocument) :
    List AttachedDocument :=
  docs.map (fun d => if d.id == id then { d with textContent := text } else d)

theorem updateDocumentText_of_absent (id text : String) (docs : List AttachedDocument)
    (h : ∀ d ∈ docs, d.id ≠ id) : updateDocumentText id text docs = docs := by
  induction docs with
  | nil => rfl
  | cons d rest ih =>
    have hd : d.id ≠ id := h d (List.mem_cons_self d rest)
    have hrest : ∀ e ∈ rest, e.id ≠ id := fun e he => h e (List.mem_cons_of_mem d he)
    simp only [updateDocumentText, List.map_cons] at ih ⊢
    rw [if_neg (by simpa using hd), ih hrest]

/-- C6: a late-arriving extraction result for an attachment that has been
removed from the registry is discarded as a no-op: it is never applied to
the registry, the attachment is not reinserted, no snapshot reflects it,
and in particular the write is a no-op on the registry produced by any
proceeding `removeAttachment` of that id. -/
theorem updateDocumentText_late_noop (id text : String) (docs : List AttachedDocument)
    (files : List AttachedFile) (s : AppState) (ip c : Bool)
    (h : ∀ d ∈ docs, d.id ≠ id) (hp : ip = true ∨ c = true) :
    updateDocumentText id text docs = docs ∧
    (∀ d ∈ updateDocumentText id text docs, d.id ≠ id) ∧
    snapshotAll ⟨files, updateDocumentText id text docs⟩ = snapshotAll ⟨files, docs⟩ ∧
    updateDocumentText id text ((removeAttachment id ip c s).1.attachedDocs) =
      (removeAttachment id ip c s).1.attachedDocs := by
  refine ⟨updateDocumentText_of_absent id text docs h, ?_, ?_, ?_⟩
  · rw [updateDocumentText_of_absent id text docs h]
    exact h
  · rw [updateDocumentText_of_absent id text docs h]
  · apply updateDocumentText_of_absent
    intro d hd
    have hcond : (ip || c) = true := by
      rcases hp with hp | hp <;> simp [hp]
    unfold removeAttachment at hd
    rw [if_pos hcond] at hd
    have := List.of_mem_filter hd
    simpa using this

/-- Witness for C6 at a concrete input: a late write for a removed id
leaves a registry that no longer holds it unchanged. -/
theorem updateDocumentText_late_noop_witness :
    updateDocumentText "gone" "late"
        [⟨"keep.pdf-1", "keep.pdf", "t", none, none⟩] =
      [⟨"keep.pdf-1", "keep.pdf", "t", none, none⟩] :=
  (updateDocumentText_late_noop "gone" "late"
      [⟨"keep.pdf-1", "keep.pdf", "t", none, none⟩] []
      ⟨[], []⟩ true false (by decide) (Or.inl rfl)).1

theorem signalAbort_append_of_absent (id : String) (pre rest : List AttachedDocument)
    (hpre : ∀ e ∈ pre, e.id ≠ id) :
    signalAbort id (pre ++ rest) = pre ++ signalAbort id rest := by
  induction pre with
  | nil => rfl
  | cons e es ih =>
    have he : e.id ≠ id := hpre e (List.mem_cons_self e es)
    have hes : ∀ x ∈ es, x.id ≠ id := fun x hx => hpre x (List.mem_cons_of_mem e hx)
    simp only [List.cons_append, signalAbort]
    rw [if_neg (by simpa using he)]
    show e :: signalAbort id (es ++ rest) = e :: (es ++ signalAbort id rest)
    rw [ih hes]

/-- C7: removing an item in `processing` state proceeds without
consulting the confirmation; removing a completed item consults the
confirmation, and declining leaves both registry sequences unchanged;
confirming removes exactly the attachment with that id and no others,
and the document's cancellation handle is signaled before the registry
removal (first effect of the trace). -/
theorem removeAttachment_spec (id : String) (s : AppState) (c : Bool)
    (d : AttachedDocument) (pre post : List AttachedDocument) (ctrl : AbortCtrl)
    (hdocs : s.attachedDocs = pre ++ d :: post)
    (hid : d.id = id)
    (hctrl : d.abortController = some ctrl)
    (hpre : ∀ e ∈ pre, e.id ≠ id) (hpost : ∀ e ∈ post, e.id ≠ id)
    (hfiles : ∀ f ∈ s.attachedFiles, f.id ≠ id) :
    removeAttachment id true c s = removeAttachment id false true s ∧
    removeAttachment id false false s = (s, []) ∧
    (removeAttachment id false true s).1 =
      { attachedFiles := s.attachedFiles, attachedDocs := pre ++ post } ∧
    (removeAttachment id false true s).2 =
      [RemoveEffect.abortSignaled id, RemoveEffect.registryFiltered id,
        RemoveEffect.rendered] := by
  have hfilesEq : s.attachedFiles.filter (fun f => !(f.id == id)) = s.attachedFiles :=
    List.filter_eq_self.mpr (fun a ha => by simpa using hfiles a ha)
  have hsig : signalAbort id s.attachedDocs =
      pre ++ ({ d with abortController :=
        d.abortController.map (fun c => { c with signaled := true }) } :: post) := by
    rw [hdocs, signalAbort_append_of_absent id pre _ hpre]
    simp only [signalAbort]
    rw [if_pos (by simpa using hid)]
  have hdocsEq : (signalAbort id s.attachedDocs).filter (fun e => !(e.id == id)) =
      pre ++ post := by
    rw [hsig, List.filter_append]
    have h1 : pre.filter (fun e => !(e.id == id)) = pre :=
      List.filter_eq_self.mpr (fun a ha => by simpa using hpre a ha)
    have h2 : ({ d with abortController :=
        d.abortController.map (fun c => { c with signaled := true }) } :: post).filter
          (fun e => !(e.id == id)) = post := by
      simp only [List.filter_cons]
      rw [if_neg (by simpa using hid)]
      exact List.filter_eq_self.mpr (fun a ha => by simpa using hpost a ha)
    rw [h1, h2]
  have hfind : (s.attachedDocs.find? (fun e => e.id == id)).bind
      (fun e => e.abortController) = some ctrl := by
    rw [hdocs]
    have h1 : pre.find? (fun e => e.id == id) = none :=
      List.find?_eq_none.mpr (fun x hx => by simpa using hpre x hx)
    have h2 : (d :: post).find? (fun e => e.id == id) = some d :=
      List.find?_cons_of_pos _ (by simpa using hid)
    rw [List.find?_append, h1, h2]
    simpa using hctrl
  refine ⟨rfl, rfl, ?_, ?_⟩
  · unfold removeAttachment
    rw [if_pos (show (false || true) = true from rfl)]
    simp only [hfilesEq, hdocsEq]
  · unfold removeAttachment
    rw [if_pos (show (false || true) = true from rfl)]
    simp only [hfind, Option.isSome_some, if_true, List.cons_append, List.nil_append]

/-- Witness for C7 at a concrete input: confirming the removal of the
only (completed) document empties the registry. -/
theorem removeAttachment_spec_witness :
    (removeAttachment "a.pdf-5" false true
        ⟨[], [⟨"a.pdf-5", "a.pdf", "text", none, some ⟨false⟩⟩]⟩).1 =
      { attachedFiles := [], attachedDocs := [] } :=
  (removeAttachment_spec "a.pdf-5"
      ⟨[], [⟨"a.pdf-5", "a.pdf", "text", none, some ⟨false⟩⟩]⟩ true
      ⟨"a.pdf-5", "a.pdf", "text", none, some ⟨false⟩⟩ [] [] ⟨false⟩ rfl rfl rfl
      (by decide) (by decide) (by decide)).2.2.1

/-! ### File selection (src lines 259-340)

The `for` loop of `handleFileSelected` awaits each document's extraction
before the next iteration, so the batch is a sequential fold.  Each
iteration's `Date.now()` and the termination of its awaited extraction
(success / `AbortError` / other error) are environment inputs.  An
`AbortError` can only arise from this attachment's own controller being
signaled, whose only call site is `removeAttachment`, which has already
removed the document and re-rendered; the catch then `return`s from the
whole handler. -/

/-- `` `${file.name}-${Date.now()}` `` (src line 267). -/
def mkFileId (name : String) (now : Nat) : String :=
  name ++ "-" ++ toString now

/-- JavaScript `String.prototype.startsWith`: the receiver's characters
begin with the argument's characters. -/
def jsStartsWith (s p : String) : Bool :=
  p.data.isPrefixOf s.data

/-- How one document's awaited extraction terminates. -/
inductive ExtractOutcome where
  | ok
  | aborted
  | failed
deriving DecidableEq, Repr

/-- The content the file-read primitives supply for a selected file. -/
inductive FileContent where
  | imageData (base64 sourceUrl : String)
  | textData (s : String)
  | pdfData (pdf : PdfDocument)
deriving DecidableEq, Repr

/-- A file of the selection batch: name, declared MIME type, content. -/
structure SelectedFile where
  name : String
  mimeType : String
  content : FileContent
deriving DecidableEq, Repr

/-- One loop iteration's environment: the file, `Date.now()` at the
iteration, and how its extraction terminates. -/
structure BatchItem where
  file : SelectedFile
  now : Nat
  outcome : ExtractOutcome
deriving DecidableEq, Repr

/-- The text extraction produces on success: `await file.text()` for
plain text (src line 305), the page loop's text for PDFs (src lines
311-318). -/
def extractedText (f : SelectedFile) : String :=
  match f.content with
  | .imageData _ _ => ""
  | .textData s => s
  | .pdfData pdf => (extractPdfRun f.name pdf).2

/-- The `updateProgress` calls of a successful extraction, ending with
the final `updateProgress(file.name)` (src line 321). -/
def okProgressEvents (f : SelectedFile) : List ProgressEvent :=
  match f.content with
  | .imageData _ _ => [⟨f.name, none⟩]
  | .textData _ => [⟨"Reading document...", some 25⟩, ⟨f.name, none⟩]
  | .pdfData pdf => (extractPdfRun f.name pdf).1

/-- Apply a sequence of `updateProgress` calls to the pill list. -/
def applyProgressList (id : String) (evs : List ProgressEvent) (pills : List Pill) : List Pill :=
  evs.foldl (fun ps e => applyUpdateProgress id e ps) pills

/-- Result of one iteration of the `for` loop: continue with the next
file, or return from `handleFileSelected` (the `return` in the
`AbortError` catch, src line 325). -/
inductive ProcessStep where
  | next (st : AppState × List Pill)
  | halted (st : AppState × List Pill)
deriving DecidableEq, Repr

/-- One iteration of the `for` loop of `handleFileSelected` (src lines
266-335).  Image files are read and appended (src lines 268-276).
Document files are appended immediately with a fresh controller and
rendered (src lines 278-281), the pill gets the `processing` class, and
then, per the awaited extraction's termination: on success the text is
written and the final name update shown; on `AbortError` the removal
path has already filtered the document out and re-rendered, and the
handler returns (the pre-abort progress updates only touched the
now-detached pill); on any other error the document is filtered out and
the captured pill is marked errored (src lines 322-333; the pre-failure
progress updates are overwritten by the error update and are elided). -/
def processOne (st : AppState × List Pill) (it : BatchItem) : ProcessStep :=
  let s := st.1
  let fileId := mkFileId it.file.name it.now
  if jsStartsWith it.file.mimeType "image/" then
    match it.file.content with
    | FileContent.imageData base64 sourceUrl =>
      let s' : AppState := { s with attachedFiles :=
        s.attachedFiles ++ [⟨fileId, it.file.name, base64, it.file.mimeType, sourceUrl⟩] }
      ProcessStep.next (s', renderAttachments s')
    | _ => ProcessStep.next st
  else if it.file.mimeType == "text/plain" || it.file.mimeType == "application/pdf" then
    let doc : AttachedDocument :=
      { id := fileId, name := it.file.name, textContent := "",
        abortController := some ⟨false⟩ }
    let s1 : AppState := { s with attachedDocs := s.attachedDocs ++ [doc] }
    let pills1 := setProcessing fileId true (renderAttachments s1)
    match it.outcome with
    | ExtractOutcome.ok =>
      let s2 : AppState :=
        { s1 with attachedDocs :=
            updateDocumentText fileId (extractedText it.file) s1.attachedDocs }
      let pills2 := setProcessing fileId false
        (applyProgressList fileId (okProgressEvents it.file) pills1)
      ProcessStep.next (s2, pills2)
    | ExtractOutcome.aborted =>
      let s2 : AppState :=
        { s1 with attachedDocs := s1.attachedDocs.filter (fun d => !(d.id == fileId)) }
      ProcessStep.halted (s2, renderAttachments s2)
    | ExtractOutcome.failed =>
      let s2 : AppState :=
        { s1 with attachedDocs := s1.attachedDocs.filter (fun d => !(d.id == fileId)) }
      let pills2 := setProcessing fileId false
        (applyUpdateProgress fileId ⟨"Error: Could not read file.", none⟩
          (setErrorClass fileId pills1))
      ProcessStep.next (s2, pills2)
  else
    ProcessStep.next st

/-- The `for` loop over the selected files.  The Bool records whether the
loop ran to completion (no `return` from an `AbortError`). -/
def runBatch : AppState × List Pill → List BatchItem → (AppState × List Pill) × Bool
  | st, [] => (st, true)
  | st, it :: rest =>
    match processOne st it with
    | ProcessStep.next st' => runBatch st' rest
    | ProcessStep.halted st' => (st', false)

/-- Observable result of `handleFileSelected`: final registry, final
pills, the file input's `value`, and whether the composer form is
enabled. -/
structure HandlerResult where
  state : AppState
  pills : List Pill
  fileInputValue : String
  formEnabled : Bool
deriving DecidableEq, Repr

/-- `handleFileSelected` (src lines 259-340): disables the composer form,
processes the batch sequentially, and only when the loop runs to
completion resets the file input's `value` and re-enables the form
(src lines 337-339). -/
def handleFileSelected (init : AppState) (initPills : List Pill) (inputValue : String)
    (batch : List BatchItem) : HandlerResult :=
  let r := runBatch (init, initPills) batch
  if r.2 then ⟨r.1.1, r.1.2, "", true⟩ else ⟨r.1.1, r.1.2, inputValue, false⟩

/-- The id sequence of the registry (images then documents). -/
def stateIds (s : AppState) : List String :=
  s.attachedFiles.map AttachedFile.id ++ s.attachedDocs.map AttachedDocument.id

theorem docMime_startsWith (m : String)
    (hm : m = "text/plain" ∨ m = "application/pdf") :
    jsStartsWith m "image/" = false := by
  rcases hm with h | h <;> rw [h] <;> decide

theorem docMime_cond (m : String)
    (hm : m = "text/plain" ∨ m = "application/pdf") :
    (m == "text/plain" || m == "application/pdf") = true := by
  rcases hm with h | h <;> rw [h] <;> decide

/-- The state after the `AbortError` path of one document: the document
was appended, then removed again by the removal path, and the pills
re-rendered. -/
def abortedStep (st : AppState × List Pill) (it : BatchItem) : AppState × List Pill :=
  let fileId := mkFileId it.file.name it.now
  let doc : AttachedDocument := ⟨fileId, it.file.name, "", none, some ⟨false⟩⟩
  let docs2 := (st.1.attachedDocs ++ [doc]).filter (fun d => !(d.id == fileId))
  let s2 : AppState := { st.1 with attachedDocs := docs2 }
  (s2, renderAttachments s2)

theorem processOne_doc_aborted (st : AppState × List Pill) (it : BatchItem)
    (hm : it.file.mimeType = "text/plain" ∨ it.file.mimeType = "application/pdf")
    (ho : it.outcome = ExtractOutcome.aborted) :
    processOne st it = ProcessStep.halted (abortedStep st it) := by
  unfold processOne abortedStep
  rw [if_neg (by simp [docMime_startsWith _ hm]), if_pos (docMime_cond _ hm), ho]

theorem runBatch_append_completed (l₁ : List BatchItem) :
    ∀ (st : AppState × List Pill), (runBatch st l₁).2 = true →
      ∀ (l₂ : List BatchItem), runBatch st (l₁ ++ l₂) = runBatch (runBatch st l₁).1 l₂ := by
  induction l₁ with
  | nil => intro st _ l₂; rfl
  | cons it rest ih =>
    intro st h l₂
    simp only [List.cons_append, runBatch] at h ⊢
    cases hp : processOne st it with
    | next st' =>
      rw [hp] at h
      exact ih st' h l₂
    | halted st' =>
      rw [hp] at h
      exact Bool.noConfusion h

/-- C10: when a document's extraction is aborted, `handleFileSelected`
returns from inside the per-file loop: the remaining files of the batch
are skipped (the result does not depend on them), the file input's value
is never reset, and the composer form is left disabled because the
trailing re-enable step is not reached. -/
theorem abort_early_return_frame (init : AppState) (initPills : List Pill) (v : String)
    (pre : List BatchItem) (it : BatchItem) (rest : List BatchItem)
    (hpre : (runBatch (init, initPills) pre).2 = true)
    (hm : it.file.mimeType = "text/plain" ∨ it.file.mimeType = "application/pdf")
    (ho : it.outcome = ExtractOutcome.aborted) :
    handleFileSelected init initPills v (pre ++ it :: rest) =
      handleFileSelected init initPills v (pre ++ [it]) ∧
    (handleFileSelected init initPills v (pre ++ it :: rest)).formEnabled = false ∧
    (handleFileSelected init initPills v (pre ++ it :: rest)).fileInputValue = v := by
  obtain ⟨stH, hH⟩ :
      ∃ stH, processOne (runBatch (init, initPills) pre).1 it = ProcessStep.halted stH :=
    ⟨_, processOne_doc_aborted _ it hm ho⟩
  have hAll : ∀ l₂ : List BatchItem,
      runBatch (init, initPills) (pre ++ it :: l₂) = (stH, false) := by
    intro l₂
    rw [runBatch_append_completed pre _ hpre]
    simp only [runBatch, hH]
  have e1 := hAll rest
  have e2 := hAll []
  refine ⟨?_, ?_, ?_⟩
  · simp [handleFileSelected, e1, e2]
  · simp [handleFileSelected, e1]
  · simp [handleFileSelected, e1]

/-- Witness for C10 at a concrete input: aborting the first of two
documents skips the second, keeps the input value and leaves the form
disabled. -/
theorem abort_early_return_frame_witness :
    (handleFileSelected emptyState [] "keep"
        [⟨⟨"w.pdf", "application/pdf", FileContent.pdfData ⟨[["p"]]⟩⟩, 4, ExtractOutcome.aborted⟩,
         ⟨⟨"x.txt", "text/plain", FileContent.textData "t"⟩, 5, ExtractOutcome.ok⟩]).formEnabled
        = false ∧
    (handleFileSelected emptyState [] "keep"
        [⟨⟨"w.pdf", "application/pdf", FileContent.pdfData ⟨[["p"]]⟩⟩, 4, ExtractOutcome.aborted⟩,
         ⟨⟨"x.txt", "text/plain", FileContent.textData "t"⟩, 5, ExtractOutcome.ok⟩]).fileInputValue
        = "keep" := by
  have h := abort_early_return_frame emptyState [] "keep" []
    ⟨⟨"w.pdf", "application/pdf", FileContent.pdfData ⟨[["p"]]⟩⟩, 4, ExtractOutcome.aborted⟩
    [⟨⟨"x.txt", "text/plain", FileContent.textData "t"⟩, 5, ExtractOutcome.ok⟩]
    rfl (Or.inr rfl) rfl
  exact ⟨h.2.1, h.2.2⟩

/-- The state after a successful document extraction: the document was
appended, its text written in place, the progress updates applied and the
`processing` class removed. -/
def okStep (st : AppState × List Pill) (it : BatchItem) : AppState × List Pill :=
  let fileId := mkFileId it.file.name it.now
  let doc : AttachedDocument := ⟨fileId, it.file.name, "", none, some ⟨false⟩⟩
  let s1 : AppState := { st.1 with attachedDocs := st.1.attachedDocs ++ [doc] }
  let pills1 := setProcessing fileId true (renderAttachments s1)
  let s2 : AppState :=
    { s1 with attachedDocs := updateDocumentText fileId (extractedText it.file) s1.attachedDocs }
  let pills2 := setProcessing fileId false
    (applyProgressList fileId (okProgressEvents it.file) pills1)
  (s2, pills2)

theorem processOne_doc_ok (st : AppState × List Pill) (it : BatchItem)
    (hm : it.file.mimeType = "text/plain" ∨ it.file.mimeType = "application/pdf")
    (ho : it.outcome = ExtractOutcome.ok) :
    processOne st it = ProcessStep.next (okStep st it) := by
  unfold processOne okStep
  rw [if_neg (by simp [docMime_startsWith _ hm]), if_pos (docMime_cond _ hm), ho]

/-- The state after a failed (non-abort) document extraction: the
document was appended, then removed on failure, and the captured pill
marked errored. -/
def failedStep (st : AppState × List Pill) (it : BatchItem) : AppState × List Pill :=
  let fileId := mkFileId it.file.name it.now
  let doc : AttachedDocument := ⟨fileId, it.file.name, "", none, some ⟨false⟩⟩
  let s1 : AppState := { st.1 with attachedDocs := st.1.attachedDocs ++ [doc] }
  let pills1 := setProcessing fileId true (renderAttachments s1)
  let docs2 := s1.attachedDocs.filter (fun d => !(d.id == fileId))
  let s2 : AppState := { s1 with attachedDocs := docs2 }
  let pills2 := setProcessing fileId false
    (applyUpdateProgress fileId ⟨"Error: Could not read file.", none⟩
      (setErrorClass fileId pills1))
  (s2, pills2)

theorem processOne_doc_failed (st : AppState × List Pill) (it : BatchItem)
    (hm : it.file.mimeType = "text/plain" ∨ it.file.mimeType = "application/pdf")
    (ho : it.outcome = ExtractOutcome.failed) :
    processOne st it = ProcessStep.next (failedStep st it) := by
  unfold processOne failedStep
  rw [if_neg (by simp [docMime_startsWith _ hm]), if_pos (docMime_cond _ hm), ho]

theorem updateDocumentText_map_id (id text : String) (docs : List AttachedDocument) :
    (updateDocumentText id text docs).map AttachedDocument.id =
      docs.map AttachedDocument.id := by
  induction docs with
  | nil => rfl
  | cons d rest ih =>
    simp only [updateDocumentText, List.map_cons] at ih ⊢
    by_cases h : (d.id == id) = true
    · rw [if_pos h]
      exact congrArg₂ List.cons rfl ih
    · rw [if_neg h]
      exact congrArg₂ List.cons rfl ih

theorem runBatch_ok_docs (batch : List BatchItem) :
    ∀ st : AppState × List Pill,
      (∀ x ∈ batch, x.outcome = ExtractOutcome.ok) →
      (∀ x ∈ batch, x.file.mimeType = "text/plain" ∨ x.file.mimeType = "application/pdf") →
      (runBatch st batch).2 = true ∧
      (runBatch st batch).1.1.attachedFiles = st.1.attachedFiles ∧
      ((runBatch st batch).1.1.attachedDocs).map AttachedDocument.id =
        (st.1.attachedDocs).map AttachedDocument.id ++
          batch.map (fun x => mkFileId x.file.name x.now) := by
  induction batch with
  | nil => intro st _ _; exact ⟨rfl, rfl, by simp [runBatch]⟩
  | cons it rest ih =>
    intro st hok hdoc
    have hm := hdoc it (by simp)
    have ho := hok it (by simp)
    have hpo := processOne_doc_ok st it hm ho
    have hrb : runBatch st (it :: rest) = runBatch (okStep st it) rest := by
      simp only [runBatch, hpo]
    obtain ⟨h1, h2, h3⟩ := ih (okStep st it)
      (fun x hx => hok x (by simp [hx])) (fun x hx => hdoc x (by simp [hx]))
    have hfiles : (okStep st it).1.attachedFiles = st.1.attachedFiles := rfl
    have hids : ((okStep st it).1.attachedDocs).map AttachedDocument.id =
        (st.1.attachedDocs).map AttachedDocument.id ++ [mkFileId it.file.name it.now] := by
      show (updateDocumentText _ _ (st.1.attachedDocs ++ [_])).map AttachedDocument.id = _
      rw [updateDocumentText_map_id]
      simp
    refine ⟨hrb ▸ h1, ?_, ?_⟩
    · rw [hrb, h2, hfiles]
    · rw [hrb, h3, hids, List.append_assoc]
      simp

/-- Counterexample to C3 as stated: the files of one batch are processed
sequentially, not concurrently, and cancelling the first document aborts
the whole handler, so the second document of the batch is never
extracted — the final registry is empty even though the same second file
alone extracts to `y\n\n`. -/
theorem batch_concurrency_counterexample :
    (handleFileSelected emptyState [] ""
        [⟨⟨"a.pdf", "application/pdf", FileContent.pdfData ⟨[["x"]]⟩⟩, 1,
            ExtractOutcome.aborted⟩,
         ⟨⟨"b.pdf", "application/pdf", FileContent.pdfData ⟨[["y"]]⟩⟩, 2,
            ExtractOutcome.ok⟩]).state.attachedDocs = [] ∧
    (handleFileSelected emptyState [] ""
        [⟨⟨"b.pdf", "application/pdf", FileContent.pdfData ⟨[["y"]]⟩⟩, 2,
            ExtractOutcome.ok⟩]).state.attachedDocs.map AttachedDocument.textContent
      = ["y\n\n"] :=
  ⟨by decide, by decide⟩

/-- C3 as amended: documents of a batch are extracted strictly
sequentially in selection order (for an all-successful batch of documents
the registry gains exactly their ids in selection order and the handler
completes), and signaling the cancellation of an in-flight document stops
the processing of the whole remaining batch (the run is the run truncated
at the aborted item). -/
theorem batch_sequential_amended
    (batch : List BatchItem) (init : AppState) (initPills : List Pill) (v : String)
    (st : AppState × List Pill) (it : BatchItem) (rest : List BatchItem)
    (hok : ∀ x ∈ batch, x.outcome = ExtractOutcome.ok)
    (hdoc : ∀ x ∈ batch, x.file.mimeType = "text/plain" ∨ x.file.mimeType = "application/pdf")
    (hm : it.file.mimeType = "text/plain" ∨ it.file.mimeType = "application/pdf")
    (ho : it.outcome = ExtractOutcome.aborted) :
    ((handleFileSelected init initPills v batch).state.attachedDocs).map AttachedDocument.id =
      init.attachedDocs.map AttachedDocument.id ++
        batch.map (fun x => mkFileId x.file.name x.now) ∧
    (handleFileSelected init initPills v batch).formEnabled = true ∧
    runBatch st (it :: rest) = runBatch st [it] := by
  obtain ⟨h1, h2, h3⟩ := runBatch_ok_docs batch (init, initPills) hok hdoc
  have hres : handleFileSelected init initPills v batch =
      ⟨(runBatch (init, initPills) batch).1.1, (runBatch (init, initPills) batch).1.2,
        "", true⟩ := by
    simp [handleFileSelected, h1]
  refine ⟨?_, ?_, ?_⟩
  · rw [hres]
    exact h3
  · rw [hres]
  · have hpo := processOne_doc_aborted st it hm ho
    simp only [runBatch, hpo]

/-- Witness for the amended C3 at a concrete input: one successful text
document appends exactly its id. -/
theorem batch_sequential_amended_witness :
    ((handleFileSelected emptyState [] ""
        [⟨⟨"s.txt", "text/plain", FileContent.textData "q"⟩, 9,
            ExtractOutcome.ok⟩]).state.attachedDocs).map AttachedDocument.id =
      emptyState.attachedDocs.map AttachedDocument.id ++ [mkFileId "s.txt" 9] := by
  have h := batch_sequential_amended
    [⟨⟨"s.txt", "text/plain", FileContent.textData "q"⟩, 9, ExtractOutcome.ok⟩]
    emptyState [] "" (emptyState, [])
    ⟨⟨"z.pdf", "application/pdf", FileContent.pdfData ⟨[]⟩⟩, 0, ExtractOutcome.aborted⟩ []
    (by decide) (by decide) (Or.inr rfl) rfl
  exact h.1

theorem processOne_halted_outcome (st st' : AppState × List Pill) (it : BatchItem)
    (h : processOne st it = ProcessStep.halted st') :
    it.outcome = ExtractOutcome.aborted := by
  unfold processOne at h
  by_cases h1 : jsStartsWith it.file.mimeType "image/" = true
  · rw [if_pos h1] at h
    rcases hcon : it.file.content with ⟨b, u⟩ | s | pdf <;> rw [hcon] at h <;>
      exact ProcessStep.noConfusion h
  · rw [if_neg h1] at h
    by_cases h2 : (it.file.mimeType == "text/plain" ||
        it.file.mimeType == "application/pdf") = true
    · rw [if_pos h2] at h
      cases ho : it.outcome with
      | ok =>
        rw [ho] at h
        exact ProcessStep.noConfusion h
      | aborted => rfl
      | failed =>
        rw [ho] at h
        exact ProcessStep.noConfusion h
    · rw [if_neg h2] at h
      exact ProcessStep.noConfusion h

theorem runBatch_completes (batch : List BatchItem) :
    ∀ st : AppState × List Pill,
      (∀ x ∈ batch, x.outcome ≠ ExtractOutcome.aborted) → (runBatch st batch).2 = true := by
  induction batch with
  | nil => intro st _; rfl
  | cons it rest ih =>
    intro st h
    simp only [runBatch]
    cases hp : processOne st it with
    | next st' => exact ih st' (fun x hx => h x (by simp [hx]))
    | halted st' => exact absurd (processOne_halted_outcome st st' it hp) (h it (by simp))

/-- Counterexample to C4 as stated: a cancellation does prevent the
remaining sibling files from being processed — aborting the first text
file leaves the batch's second file unprocessed (empty registry), while
the same second file alone is processed to completion. -/
theorem abort_stops_siblings_counterexample :
    (handleFileSelected emptyState [] ""
        [⟨⟨"c.txt", "text/plain", FileContent.textData "1"⟩, 3, ExtractOutcome.aborted⟩,
         ⟨⟨"d.txt", "text/plain", FileContent.textData "2"⟩, 4,
            ExtractOutcome.ok⟩]).state.attachedDocs = [] ∧
    (handleFileSelected emptyState [] ""
        [⟨⟨"d.txt", "text/plain", FileContent.textData "2"⟩, 4,
            ExtractOutcome.ok⟩]).state.attachedDocs.map AttachedDocument.name = ["d.txt"] :=
  ⟨by decide, by decide⟩

/-- C4 as amended: an extraction that terminates with `AbortedError` is a
silent no-op for the aborted attachment itself (no pill is marked
errored, and no registry entry beyond the one the remove path already
took out is touched), and a non-abort failure never prevents the
remaining sibling files from being processed (a batch without aborts
always runs to completion, re-enabling the form and resetting the file
input); but an abort does stop the processing of the remaining siblings. -/
theorem abort_silent_failure_isolated_amended
    (s : AppState) (pills : List Pill) (it : BatchItem)
    (init : AppState) (initPills : List Pill) (v : String) (batch : List BatchItem)
    (hm : it.file.mimeType = "text/plain" ∨ it.file.mimeType = "application/pdf")
    (ho : it.outcome = ExtractOutcome.aborted)
    (hfresh : ∀ d ∈ s.attachedDocs, d.id ≠ mkFileId it.file.name it.now)
    (hnoabort : ∀ x ∈ batch, x.outcome ≠ ExtractOutcome.aborted) :
    (∃ st', processOne (s, pills) it = ProcessStep.halted st' ∧
      st'.1.attachedDocs = s.attachedDocs ∧
      st'.1.attachedFiles = s.attachedFiles ∧
      ∀ p ∈ st'.2, p.error = false) ∧
    (handleFileSelected init initPills v batch).formEnabled = true ∧
    (handleFileSelected init initPills v batch).fileInputValue = "" := by
  constructor
  · refine ⟨abortedStep (s, pills) it, processOne_doc_aborted (s, pills) it hm ho, ?_, rfl, ?_⟩
    · show ((s.attachedDocs ++ [_]).filter _) = s.attachedDocs
      rw [List.filter_append]
      have h1 : s.attachedDocs.filter
          (fun d => !(d.id == mkFileId it.file.name it.now)) = s.attachedDocs :=
        List.filter_eq_self.mpr (fun a ha => by simpa using hfresh a ha)
      have h2 : ([⟨mkFileId it.file.name it.now, it.file.name, "", none, some ⟨false⟩⟩] :
          List AttachedDocument).filter
            (fun d => !(d.id == mkFileId it.file.name it.now)) = [] := by
        simp [List.filter_cons]
      rw [h1, h2, List.append_nil]
    · intro p hp
      simp only [abortedStep, renderAttachments, List.mem_map] at hp
      obtain ⟨a, _, rfl⟩ := hp
      cases a <;> rfl
  · have hc := runBatch_completes batch (init, initPills) hnoabort
    constructor <;> simp [handleFileSelected, hc]

/-- Witness for the amended C4 at a concrete input: a batch whose first
file fails (non-abort) still completes and re-enables the form. -/
theorem abort_silent_failure_isolated_amended_witness :
    (handleFileSelected emptyState [] "v"
        [⟨⟨"e.txt", "text/plain", FileContent.textData "x"⟩, 1, ExtractOutcome.failed⟩,
         ⟨⟨"f.txt", "text/plain", FileContent.textData "y"⟩, 2,
            ExtractOutcome.ok⟩]).formEnabled = true := by
  have h := abort_silent_failure_isolated_amended emptyState []
    ⟨⟨"g.pdf", "application/pdf", FileContent.pdfData ⟨[]⟩⟩, 3, ExtractOutcome.aborted⟩
    emptyState [] "v"
    [⟨⟨"e.txt", "text/plain", FileContent.textData "x"⟩, 1, ExtractOutcome.failed⟩,
     ⟨⟨"f.txt", "text/plain", FileContent.textData "y"⟩, 2, ExtractOutcome.ok⟩]
    (Or.inr rfl) rfl (by decide) (by decide)
  exact h.2.1

/-- Counterexample to C5 as stated: after a successful extraction the
handler has returned (form re-enabled), the extraction is no longer in
progress, yet the document still carries its cancellation handle — the
handle is set at creation and never cleared on success. -/
theorem controller_not_cleared_counterexample :
    (handleFileSelected emptyState [] ""
        [⟨⟨"c5.txt", "text/plain", FileContent.textData "hello"⟩, 7,
            ExtractOutcome.ok⟩]).state.attachedDocs =
      [⟨"c5.txt-7", "c5.txt", "hello", none, some ⟨false⟩⟩] ∧
    (handleFileSelected emptyState [] ""
        [⟨⟨"c5.txt", "text/plain", FileContent.textData "hello"⟩, 7,
            ExtractOutcome.ok⟩]).formEnabled = true :=
  ⟨by decide, by decide⟩

/-- The state carried by either kind of loop step. -/
def stepState (r : ProcessStep) : AppState × List Pill :=
  match r with
  | .next st => st
  | .halted st => st

theorem processOne_controller_invariant (st : AppState × List Pill) (it : BatchItem)
    (h : ∀ d ∈ st.1.attachedDocs, d.abortController.isSome = true) :
    ∀ d ∈ (stepState (processOne st it)).1.attachedDocs,
      d.abortController.isSome = true := by
  intro d hd
  unfold processOne at hd
  by_cases h1 : jsStartsWith it.file.mimeType "image/" = true
  · rw [if_pos h1] at hd
    rcases hcon : it.file.content with ⟨b, u⟩ | s | pdf <;> rw [hcon] at hd <;>
      exact h d hd
  · rw [if_neg h1] at hd
    by_cases h2 : (it.file.mimeType == "text/plain" ||
        it.file.mimeType == "application/pdf") = true
    · rw [if_pos h2] at hd
      cases ho : it.outcome with
      | ok =>
        rw [ho] at hd
        simp only [stepState, updateDocumentText, List.mem_map, List.mem_append,
          List.mem_singleton] at hd
        obtain ⟨d₀, hd₀, rfl⟩ := hd
        by_cases hb : (d₀.id == mkFileId it.file.name it.now) = true
        · rw [if_pos hb]
          rcases hd₀ with hmem | rfl
          · exact h d₀ hmem
          · rfl
        · rw [if_neg hb]
          rcases hd₀ with hmem | rfl
          · exact h d₀ hmem
          · rfl
      | aborted =>
        rw [ho] at hd
        simp only [stepState] at hd
        rcases List.mem_append.mp (List.mem_of_mem_filter hd) with hmem | hnew
        · exact h d hmem
        · rw [List.mem_singleton.mp hnew]
          rfl
      | failed =>
        rw [ho] at hd
        simp only [stepState] at hd
        rcases List.mem_append.mp (List.mem_of_mem_filter hd) with hmem | hnew
        · exact h d hmem
        · rw [List.mem_singleton.mp hnew]
          rfl
    · rw [if_neg h2] at hd
      exact h d hd

theorem runBatch_controller (batch : List BatchItem) :
    ∀ st : AppState × List Pill,
      (∀ d ∈ st.1.attachedDocs, d.abortController.isSome = true) →
      ∀ d ∈ (runBatch st batch).1.1.attachedDocs, d.abortController.isSome = true := by
  induction batch with
  | nil => intro st h; exact h
  | cons it rest ih =>
    intro st h
    simp only [runBatch]
    cases hp : processOne st it with
    | next st' =>
      have hinv := processOne_controller_invariant st it h
      rw [hp] at hinv
      exact ih st' hinv
    | halted st' =>
      have hinv := processOne_controller_invariant st it h
      rw [hp] at hinv
      exact hinv

/-- C5 as amended: a document's cancellation handle is set at creation
and is never cleared afterwards — every document present in the registry
carries a handle at all times, in particular also after its extraction
has terminated successfully; termination removes the attachment on
failure or cancellation but never clears the handle of a retained one. -/
theorem controller_retained_amended (init : AppState) (initPills : List Pill) (v : String)
    (batch : List BatchItem)
    (h : ∀ d ∈ init.attachedDocs, d.abortController.isSome = true) :
    ∀ d ∈ (handleFileSelected init initPills v batch).state.attachedDocs,
      d.abortController.isSome = true := by
  intro d hd
  have hrb := runBatch_controller batch (init, initPills) h
  unfold handleFileSelected at hd
  by_cases hc : (runBatch (init, initPills) batch).2 = true
  · rw [if_pos hc] at hd
    exact hrb d hd
  · rw [if_neg hc] at hd
    exact hrb d hd

/-- Witness for the amended C5 at a concrete input. -/
theorem controller_retained_amended_witness :
    ((handleFileSelected emptyState [] ""
        [⟨⟨"h.txt", "text/plain", FileContent.textData "w"⟩, 11,
            ExtractOutcome.ok⟩]).state.attachedDocs.all
        (fun d => d.abortController.isSome)) = true := by
  apply List.all_eq_true.mpr
  intro d hd
  exact controller_retained_amended emptyState [] ""
    [⟨⟨"h.txt", "text/plain", FileContent.textData "w"⟩, 11, ExtractOutcome.ok⟩]
    (by intro d hd; simp [emptyState] at hd) d hd

/-- C8: a document whose extraction fails with a non-abort error is
removed from the registry, and its captured pill — the last rendered
pill, the one of the just-appended document — is marked errored with the
exact text `Error: Could not read file.`, bar hidden, `processing`
removed. -/
theorem failed_extraction_error_pill (s : AppState) (pills : List Pill) (it : BatchItem)
    (hm : it.file.mimeType = "text/plain" ∨ it.file.mimeType = "application/pdf")
    (ho : it.outcome = ExtractOutcome.failed)
    (hfresh : ∀ d ∈ s.attachedDocs, d.id ≠ mkFileId it.file.name it.now) :
    ∃ st', processOne (s, pills) it = ProcessStep.next st' ∧
      st'.1.attachedDocs = s.attachedDocs ∧
      st'.1.attachedFiles = s.attachedFiles ∧
      st'.2.getLast? = some ⟨mkFileId it.file.name it.now, false,
        "Error: Could not read file.", true, 0, false, true⟩ := by
  refine ⟨failedStep (s, pills) it, processOne_doc_failed (s, pills) it hm ho, ?_, rfl, ?_⟩
  · show ((s.attachedDocs ++
        [(⟨mkFileId it.file.name it.now, it.file.name, "", none, some ⟨false⟩⟩ :
          AttachedDocument)]).filter
          (fun d => !(d.id == mkFileId it.file.name it.now))) = s.attachedDocs
    rw [List.filter_append]
    have h1 : s.attachedDocs.filter
        (fun d => !(d.id == mkFileId it.file.name it.now)) = s.attachedDocs :=
      List.filter_eq_self.mpr (fun a ha => by simpa using hfresh a ha)
    have h2 : ([⟨mkFileId it.file.name it.now, it.file.name, "", none, some ⟨false⟩⟩] :
        List AttachedDocument).filter
          (fun d => !(d.id == mkFileId it.file.name it.now)) = [] := by
      simp [List.filter_cons]
    rw [h1, h2, List.append_nil]
  · show (setProcessing _ false (applyUpdateProgress _ _ (setErrorClass _
        (setProcessing _ true (renderAttachments _))))).getLast? = _
    simp only [setProcessing, applyUpdateProgress, setErrorClass, renderAttachments,
      snapshotAll, List.getLast?_map, List.getLast?_append, List.map_append]
    simp [renderPill, updatePill]

/-- Witness for C8 at a concrete input: a failing text file is removed
and its pill shows the exact error text. -/
theorem failed_extraction_error_pill_witness :
    ∃ st', processOne (emptyState, []) 
        ⟨⟨"bad.txt", "text/plain", FileContent.textData ""⟩, 6, ExtractOutcome.failed⟩ =
          ProcessStep.next st' ∧
      st'.1.attachedDocs = emptyState.attachedDocs ∧
      st'.1.attachedFiles = emptyState.attachedFiles ∧
      st'.2.getLast? = some ⟨mkFileId "bad.txt" 6, false,
        "Error: Could not read file.", true, 0, false, true⟩ :=
  failed_extraction_error_pill emptyState []
    ⟨⟨"bad.txt", "text/plain", FileContent.textData ""⟩, 6, ExtractOutcome.failed⟩
    (Or.inl rfl) rfl (by intro d hd; simp [emptyState] at hd)

/-! ### Identity composition (src line 267)

`fileId` is the composition `name-timestamp`.  The following development
settles when this composition is injective: the decimal rendering of the
timestamp contains no dash and is injective, so the id determines the
(name, timestamp) pair — but equal names with equal timestamps collide. -/

theorem digitChar_fin_inj :
    ∀ a b : Fin 10, Nat.digitChar a.val = Nat.digitChar b.val → a = b := by decide

theorem digitChar_ne_dash : ∀ a : Fin 10, Nat.digitChar a.val ≠ '-' := by decide

theorem digitChar_inj_lt (a b : Nat) (ha : a < 10) (hb : b < 10)
    (h : Nat.digitChar a = Nat.digitChar b) : a = b := by
  have := digitChar_fin_inj ⟨a, ha⟩ ⟨b, hb⟩ h
  exact congrArg Fin.val this

theorem map_digitChar_inj :
    ∀ (l₁ l₂ : List Nat), (∀ d ∈ l₁, d < 10) → (∀ d ∈ l₂, d < 10) →
      l₁.map Nat.digitChar = l₂.map Nat.digitChar → l₁ = l₂
  | [], [], _, _, _ => rfl
  | [], _ :: _, _, _, h => by simp at h
  | _ :: _, [], _, _, h => by simp at h
  | a :: as, b :: bs, h1, h2, h => by
    simp only [List.map_cons, List.cons.injEq] at h
    have ha : a < 10 := h1 a (by simp)
    have hb : b < 10 := h2 b (by simp)
    have hab : a = b := digitChar_inj_lt a b ha hb h.1
    subst hab
    rw [map_digitChar_inj as bs (fun d hd => h1 d (by simp [hd]))
      (fun d hd => h2 d (by simp [hd])) h.2]

theorem toDigitsCore_eq_digits :
    ∀ (fuel n : Nat) (acc : List Char), 0 < n → n ≤ fuel →
      Nat.toDigitsCore 10 fuel n acc =
        ((Nat.digits 10 n).map Nat.digitChar).reverse ++ acc := by
  intro fuel
  induction fuel with
  | zero => intro n acc h1 h2; omega
  | succ f ih =>
    intro n acc h1 h2
    rw [show Nat.toDigitsCore 10 (f + 1) n acc =
        (if n / 10 = 0 then Nat.digitChar (n % 10) :: acc
         else Nat.toDigitsCore 10 f (n / 10) (Nat.digitChar (n % 10) :: acc)) from rfl]
    rw [Nat.digits_def' (by norm_num : (1 : ℕ) < 10) h1]
    by_cases h : n / 10 = 0
    · rw [if_pos h, h]
      simp
    · rw [if_neg h]
      have h1' : 0 < n / 10 := Nat.pos_of_ne_zero h
      have h2' : n / 10 ≤ f := by
        have hd := Nat.div_lt_self h1 (by norm_num : 1 < 10)
        omega
      rw [ih (n / 10) (Nat.digitChar (n % 10) :: acc) h1' h2']
      simp [List.reverse_cons, List.append_assoc]

theorem toDigits_ten_eq (n : Nat) :
    Nat.toDigits 10 n =
      if n = 0 then ['0'] else ((Nat.digits 10 n).map Nat.digitChar).reverse := by
  by_cases h : n = 0
  · rw [if_pos h, h]
    rfl
  · rw [if_neg h]
    have hdef : Nat.toDigits 10 n = Nat.toDigitsCore 10 (n + 1) n [] := rfl
    rw [hdef, toDigitsCore_eq_digits (n + 1) n [] (Nat.pos_of_ne_zero h) (by omega)]
    simp

theorem natRepr_data (n : Nat) : (Nat.repr n).data = Nat.toDigits 10 n := rfl

theorem natRepr_inj (m n : Nat) (h : Nat.repr m = Nat.repr n) : m = n := by
  have hdata : Nat.toDigits 10 m = Nat.toDigits 10 n := by
    have hc := congrArg String.data h
    rwa [natRepr_data, natRepr_data] at hc
  rw [toDigits_ten_eq, toDigits_ten_eq] at hdata
  by_cases hm : m = 0 <;> by_cases hn : n = 0
  · rw [hm, hn]
  · exfalso
    rw [if_pos hm, if_neg hn] at hdata
    have hrev := congrArg List.reverse hdata
    simp only [List.reverse_reverse] at hrev
    have hmap : (Nat.digits 10 n).map Nat.digitChar = [Nat.digitChar 0] := by
      simpa using hrev.symm
    have hdig : Nat.digits 10 n = [0] :=
      map_digitChar_inj _ [0] (fun d hd => Nat.digits_lt_base (by norm_num) hd)
        (by intro d hd; simp at hd; omega) (by simpa using hmap)
    have h0 := Nat.ofDigits_digits 10 n
    rw [hdig] at h0
    simp [Nat.ofDigits] at h0
    exact hn h0.symm
  · exfalso
    rw [if_neg hm, if_pos hn] at hdata
    have hrev := congrArg List.reverse hdata
    simp only [List.reverse_reverse] at hrev
    have hmap : (Nat.digits 10 m).map Nat.digitChar = [Nat.digitChar 0] := by
      simpa using hrev
    have hdig : Nat.digits 10 m = [0] :=
      map_digitChar_inj _ [0] (fun d hd => Nat.digits_lt_base (by norm_num) hd)
        (by intro d hd; simp at hd; omega) (by simpa using hmap)
    have h0 := Nat.ofDigits_digits 10 m
    rw [hdig] at h0
    simp [Nat.ofDigits] at h0
    exact hm h0.symm
  · rw [if_neg hm, if_neg hn] at hdata
    have hrev := congrArg List.reverse hdata
    simp only [List.reverse_reverse] at hrev
    have hdig := map_digitChar_inj _ _ (fun d hd => Nat.digits_lt_base (by norm_num) hd)
      (fun d hd => Nat.digits_lt_base (by norm_num) hd) hrev
    exact Nat.digits.injective 10 hdig

theorem natRepr_no_dash (n : Nat) : '-' ∉ (Nat.repr n).data := by
  rw [natRepr_data, toDigits_ten_eq]
  by_cases h : n = 0
  · rw [if_pos h]
    decide
  · rw [if_neg h]
    intro hmem
    rw [List.mem_reverse] at hmem
    obtain ⟨d, hd, hchar⟩ := List.mem_map.mp hmem
    have hlt : d < 10 := Nat.digits_lt_base (by norm_num) hd
    exact digitChar_ne_dash ⟨d, hlt⟩ hchar

theorem sep_split_unique :
    ∀ (a₁ a₂ b₁ b₂ : List Char), '-' ∉ a₁ → '-' ∉ a₂ →
      a₁ ++ '-' :: b₁ = a₂ ++ '-' :: b₂ → a₁ = a₂ ∧ b₁ = b₂
  | [], [], b₁, b₂, _, _, h => by
    simp only [List.nil_append, List.cons.injEq] at h
    exact ⟨rfl, h.2⟩
  | [], x :: xs, b₁, b₂, _, h2, h => by
    simp only [List.nil_append, List.cons_append, List.cons.injEq] at h
    exfalso
    apply h2
    rw [h.1]
    exact List.mem_cons_self x xs
  | x :: xs, [], b₁, b₂, h1, _, h => by
    simp only [List.cons_append, List.nil_append, List.cons.injEq] at h
    exfalso
    apply h1
    rw [← h.1]
    exact List.mem_cons_self x xs
  | x :: xs, y :: ys, b₁, b₂, h1, h2, h => by
    simp only [List.cons_append, List.cons.injEq] at h
    have hx : '-' ∉ xs := fun hm => h1 (List.mem_cons_of_mem x hm)
    have hy : '-' ∉ ys := fun hm => h2 (List.mem_cons_of_mem y hm)
    obtain ⟨he, ht⟩ := sep_split_unique xs ys b₁ b₂ hx hy h.2
    exact ⟨by rw [h.1, he], ht⟩

theorem mkFileId_data (n : String) (t : Nat) :
    (mkFileId n t).data = n.data ++ '-' :: (Nat.repr t).data := by
  show ((n ++ "-") ++ toString t).data = _
  rw [String.data_append, String.data_append]
  have hts : (toString t : String) = Nat.repr t := rfl
  rw [hts]
  simp

theorem mkFileId_inj (n₁ n₂ : String) (t₁ t₂ : Nat)
    (h : mkFileId n₁ t₁ = mkFileId n₂ t₂) : n₁ = n₂ ∧ t₁ = t₂ := by
  have hdata := congrArg String.data h
  rw [mkFileId_data, mkFileId_data] at hdata
  have hrev := congrArg List.reverse hdata
  simp only [List.reverse_append, List.reverse_cons, List.append_assoc,
    List.singleton_append] at hrev
  have hd1 : '-' ∉ ((Nat.repr t₁).data).reverse := by
    rw [List.mem_reverse]
    exact natRepr_no_dash t₁
  have hd2 : '-' ∉ ((Nat.repr t₂).data).reverse := by
    rw [List.mem_reverse]
    exact natRepr_no_dash t₂
  obtain ⟨hr, hn⟩ := sep_split_unique _ _ _ _ hd1 hd2 hrev
  constructor
  · exact String.ext (List.reverse_injective hn)
  · exact natRepr_inj t₁ t₂ (String.ext (List.reverse_injective hr))

theorem nodup_of_subperm {α : Type} {l₁ l₂ : List α} (h : List.Subperm l₁ l₂) (h₂ : l₂.Nodup) :
    l₁.Nodup := by
  obtain ⟨l, hperm, hsub⟩ := h
  have hl : l.Nodup := List.Nodup.sublist hsub h₂
  exact hperm.nodup_iff.mp hl


theorem filtered_ids_sublist (docs : List AttachedDocument) (p : AttachedDocument → Bool) :
    List.Sublist ((docs.filter p).map AttachedDocument.id) (docs.map AttachedDocument.id) :=
  (List.filter_sublist docs).map _

theorem stateIds_subperm_aux (A B : List String) (f : String) :
    List.Subperm ((A ++ [f]) ++ B) ((A ++ B) ++ [f]) := by
  apply List.Perm.subperm
  have h1 : (A ++ [f]) ++ B = A ++ ([f] ++ B) := by rw [List.append_assoc]
  have h2 : (A ++ B) ++ [f] = A ++ (B ++ [f]) := by rw [List.append_assoc]
  rw [h1, h2, List.singleton_append]
  exact List.Perm.append_left A (List.perm_append_singleton f B).symm

theorem processOne_stateIds_subperm (st : AppState × List Pill) (it : BatchItem) :
    List.Subperm (stateIds (stepState (processOne st it)).1)
      (stateIds st.1 ++ [mkFileId it.file.name it.now]) := by
  unfold processOne
  by_cases h1 : jsStartsWith it.file.mimeType "image/" = true
  · rw [if_pos h1]
    cases hcon : it.file.content with
    | imageData b u =>
      simp only [stepState, stateIds, List.map_append]
      exact stateIds_subperm_aux _ _ _
    | textData s =>
      exact (List.sublist_append_left _ _).subperm
    | pdfData pdf =>
      exact (List.sublist_append_left _ _).subperm
  · rw [if_neg h1]
    by_cases h2 : (it.file.mimeType == "text/plain" ||
        it.file.mimeType == "application/pdf") = true
    · rw [if_pos h2]
      cases ho : it.outcome with
      | ok =>
        simp only [stepState, stateIds, updateDocumentText_map_id, List.map_append]
        rw [← List.append_assoc]
        simp only [List.map_cons, List.map_nil]
        exact List.Subperm.refl _
      | aborted =>
        simp only [stepState, stateIds]
        apply List.Sublist.subperm
        rw [List.append_assoc]
        apply List.Sublist.append_left
        have hsub := filtered_ids_sublist
          (st.1.attachedDocs ++
            [(⟨mkFileId it.file.name it.now, it.file.name, "", none, some ⟨false⟩⟩ :
              AttachedDocument)])
          (fun d => !(d.id == mkFileId it.file.name it.now))
        rw [List.map_append] at hsub
        simpa using hsub
      | failed =>
        simp only [stepState, stateIds]
        apply List.Sublist.subperm
        rw [List.append_assoc]
        apply List.Sublist.append_left
        have hsub := filtered_ids_sublist
          (st.1.attachedDocs ++
            [(⟨mkFileId it.file.name it.now, it.file.name, "", none, some ⟨false⟩⟩ :
              AttachedDocument)])
          (fun d => !(d.id == mkFileId it.file.name it.now))
        rw [List.map_append] at hsub
        simpa using hsub
    · rw [if_neg h2]
      exact (List.sublist_append_left _ _).subperm

theorem runBatch_stateIds_subperm (batch : List BatchItem) :
    ∀ st : AppState × List Pill,
      List.Subperm (stateIds (runBatch st batch).1.1)
        (stateIds st.1 ++ batch.map (fun it => mkFileId it.file.name it.now)) := by
  induction batch with
  | nil =>
    intro st
    simpa using List.Subperm.refl (stateIds st.1)
  | cons it rest ih =>
    intro st
    simp only [runBatch, List.map_cons]
    cases hp : processOne st it with
    | next st' =>
      have hstep := processOne_stateIds_subperm st it
      rw [hp] at hstep
      have h2 := ih st'
      have h3 : List.Subperm
          (stateIds st'.1 ++ rest.map (fun it => mkFileId it.file.name it.now))
          ((stateIds st.1 ++ [mkFileId it.file.name it.now]) ++
            rest.map (fun it => mkFileId it.file.name it.now)) :=
        (List.subperm_append_right _).mpr hstep
      have h4 := h2.trans h3
      rw [List.append_assoc, List.singleton_append] at h4
      exact h4
    | halted st' =>
      have hstep := processOne_stateIds_subperm st it
      rw [hp] at hstep
      refine hstep.trans (List.Sublist.subperm ?_)
      apply List.Sublist.append_left
      exact List.Sublist.cons₂ _ (List.nil_sublist _)

/-- Counterexample to C9 as stated: two same-named image files selected
in one batch and stamped in the same millisecond receive the same id —
two distinct attachments are simultaneously present in the registry with
equal ids. -/
theorem id_collision_counterexample :
    ((handleFileSelected emptyState [] ""
        [⟨⟨"a.png", "image/png", FileContent.imageData "AAA" "u1"⟩, 100, ExtractOutcome.ok⟩,
         ⟨⟨"a.png", "image/png", FileContent.imageData "BBB" "u2"⟩, 100,
            ExtractOutcome.ok⟩]).state.attachedFiles).map AttachedFile.id =
      ["a.png-100", "a.png-100"] ∧
    ((handleFileSelected emptyState [] ""
        [⟨⟨"a.png", "image/png", FileContent.imageData "AAA" "u1"⟩, 100, ExtractOutcome.ok⟩,
         ⟨⟨"a.png", "image/png", FileContent.imageData "BBB" "u2"⟩, 100,
            ExtractOutcome.ok⟩]).state.attachedFiles).Nodup ∧
    ¬ (stateIds (handleFileSelected emptyState [] ""
        [⟨⟨"a.png", "image/png", FileContent.imageData "AAA" "u1"⟩, 100, ExtractOutcome.ok⟩,
         ⟨⟨"a.png", "image/png", FileContent.imageData "BBB" "u2"⟩, 100,
            ExtractOutcome.ok⟩]).state).Nodup :=
  ⟨by decide, by decide, by decide⟩

/-- C9 as amended: attachment ids are the composition `name-timestamp`,
which determines the (name, timestamp) pair uniquely; ids in the registry
are therefore pairwise distinct provided the initial ids and the
compositions of the batch are pairwise distinct — same-named files
created at the same timestamp are the exact failure case. -/
theorem ids_nodup_amended (init : AppState) (initPills : List Pill) (v : String)
    (batch : List BatchItem)
    (h : (stateIds init ++ batch.map (fun it => mkFileId it.file.name it.now)).Nodup) :
    (stateIds (handleFileSelected init initPills v batch).state).Nodup ∧
    ∀ (n₁ n₂ : String) (t₁ t₂ : Nat),
      mkFileId n₁ t₁ = mkFileId n₂ t₂ → n₁ = n₂ ∧ t₁ = t₂ := by
  constructor
  · have hsub := runBatch_stateIds_subperm batch (init, initPills)
    have hnodup := nodup_of_subperm hsub h
    unfold handleFileSelected
    by_cases hc : (runBatch (init, initPills) batch).2 = true
    · rw [if_pos hc]
      exact hnodup
    · rw [if_neg hc]
      exact hnodup
  · intro n₁ n₂ t₁ t₂ hh
    exact mkFileId_inj n₁ n₂ t₁ t₂ hh

/-- Witness for the amended C9 at a concrete input: two distinct
(name, timestamp) compositions yield a registry with pairwise distinct
ids. -/
theorem ids_nodup_amended_witness :
    (stateIds (handleFileSelected emptyState [] ""
        [⟨⟨"p1.png", "image/png", FileContent.imageData "A" "u"⟩, 1, ExtractOutcome.ok⟩,
         ⟨⟨"p2.png", "image/png", FileContent.imageData "B" "u"⟩, 2,
            ExtractOutcome.ok⟩]).state).Nodup :=
  (ids_nodup_amended emptyState [] ""
    [⟨⟨"p1.png", "image/png", FileContent.imageData "A" "u"⟩, 1, ExtractOutcome.ok⟩,
     ⟨⟨"p2.png", "image/png", FileContent.imageData "B" "u"⟩, 2, ExtractOutcome.ok⟩]
    (by decide)).1
